import Mathlib

/-!
Verification of the `wdb` repository's LSC parser (`src/sc/src/lib.rs`).

The source is a `rust-peg` grammar over `str`. We embed it shallowly:
a parser is a function from the remaining input (a `List Char`) to
`Option (value × remaining input)`.  The combinators below mirror the
semantics of `rust-peg` constructs exactly:

* ordered choice `a / b` is committed choice (`porelse`): if `a`
  succeeds, `b` is never tried, even if the sequel fails;
* `e?` (`popt`), `e*` (`pstar`), `e+` (`pplus`), `e ** sep` (`psepStar`)
  and `e ++ sep` (`psepPlus`) are greedy and possessive (no
  backtracking into a succeeded repetition or optional);
* character classes `[c..]+` are greedy runs (`pcls1`);
* string literals match exactly (`plit`).

`pstar`/`pplus`/`psepStar`/`psepPlus` use a fuel of `input length + 1`;
every starred body in this grammar consumes at least one character on
success, so the fuel is never exhausted and the embedding agrees with
rust-peg's unbounded loop.  The mutually recursive rule-element cluster
of the grammar takes an explicit nesting fuel (`parseElem`); the
top-level entry point supplies ample fuel.
-/

namespace Wdb

/-- A PEG parser over characters: input to optional (value, rest). -/
def P (α : Type) : Type := List Char → Option (α × List Char)

def ppure {α : Type} (a : α) : P α := fun s => some (a, s)

def pfail {α : Type} : P α := fun _ => none

def pbind {α β : Type} (p : P α) (f : α → P β) : P β := fun s =>
  match p s with
  | none => none
  | some (a, t) => f a t

def pmap {α β : Type} (f : α → β) (p : P α) : P β := fun s =>
  match p s with
  | none => none
  | some (a, t) => some (f a, t)

/-- Ordered (committed) choice, rust-peg `a / b`. -/
def porelse {α : Type} (p q : P α) : P α := fun s =>
  match p s with
  | none => q s
  | r => r

/-- Possessive optional, rust-peg `e?`. -/
def popt {α : Type} (p : P α) : P (Option α) := fun s =>
  match p s with
  | none => some (none, s)
  | some (a, t) => some (some a, t)

/-- Literal string match, rust-peg `"lit"`. -/
def plit : List Char → P Unit
  | [] => fun s => some ((), s)
  | c :: w => fun s =>
    match s with
    | [] => none
    | d :: t => if c = d then plit w t else none

def plitS (w : String) : P Unit := plit w.data

/-- Split a list into its maximal prefix of characters satisfying `p`
and the rest (greedy character-class run). -/
def takeWhileSplit (p : Char → Bool) : List Char → List Char × List Char
  | [] => ([], [])
  | c :: s =>
    if p c then
      let r := takeWhileSplit p s
      (c :: r.1, r.2)
    else ([], c :: s)

/-- One character of class `p`, rust-peg `[class]`. -/
def pcls (p : Char → Bool) : P Char := fun s =>
  match s with
  | [] => none
  | c :: t => if p c then some (c, t) else none

/-- Greedy run of at least one character of class `p`, rust-peg `[class]+`. -/
def pcls1 (p : Char → Bool) : P (List Char) := fun s =>
  match s with
  | [] => none
  | c :: t =>
    if p c then
      let r := takeWhileSplit p t
      some (c :: r.1, r.2)
    else none

/-- Greedy run of zero or more characters of class `p`, rust-peg `[class]*`. -/
def pcls0 (p : Char → Bool) : P (List Char) := fun s =>
  some (takeWhileSplit p s)

/-- Fuelled iteration underlying `e*`; the fuel is always chosen larger
than the input length, and every iterated body consumes input, so the
zero-fuel case is never reached. -/
def pmanyF {α : Type} (p : P α) : Nat → List Char → List α × List Char
  | 0, s => ([], s)
  | f + 1, s =>
    match p s with
    | none => ([], s)
    | some (a, t) =>
      let r := pmanyF p f t
      (a :: r.1, r.2)

/-- rust-peg `e*`: zero or more, greedy, always succeeds. -/
def pstar {α : Type} (p : P α) : P (List α) := fun s =>
  some (pmanyF p (s.length + 1) s)

/-- rust-peg `e+`: one or more, greedy. -/
def pplus {α : Type} (p : P α) : P (List α) := fun s =>
  match p s with
  | none => none
  | some (a, t) =>
    let r := pmanyF p (t.length + 1) t
    some (a :: r.1, r.2)

/-- rust-peg `e ** sep`: zero or more, `sep`-separated. -/
def psepStar {α : Type} (p : P α) (sep : P Unit) : P (List α) := fun s =>
  match p s with
  | none => some ([], s)
  | some (a, t) =>
    let r := pmanyF (pbind sep fun _ => p) (t.length + 1) t
    some (a :: r.1, r.2)

/-- rust-peg `e ++ sep`: one or more, `sep`-separated. -/
def psepPlus {α : Type} (p : P α) (sep : P Unit) : P (List α) := fun s =>
  match p s with
  | none => none
  | some (a, t) =>
    let r := pmanyF (pbind sep fun _ => p) (t.length + 1) t
    some (a :: r.1, r.2)

/-! ## Scanner primitives (`lib.rs` lines 22-42) -/

/-- `WHITESPACE` class: `[' ' | '\t' | '\r' | '\n']`. -/
def wsChar (c : Char) : Bool := c = ' ' || c = '\t' || c = '\r' || c = '\n'

/-- Characters allowed in a comment body: `[^ '\n' | '\r']`. -/
def commentChar (c : Char) : Bool := !(c = '\n' || c = '\r')

/-- `NAME` character class: ASCII letters and digits. -/
def isSnameChar (c : Char) : Bool :=
  ('A' ≤ c && c ≤ 'Z') || ('a' ≤ c && c ≤ 'z') || ('0' ≤ c && c ≤ '9')

def isDigitChar (c : Char) : Bool := '0' ≤ c && c ≤ '9'

/-- `rule whitespace() = [' ' | '\t' | '\r' | '\n']+` -/
def whitespace : P Unit := pmap (fun _ => ()) (pcls1 wsChar)

/-- `rule comment() = whitespace()? "#" [^ '\n' | '\r']*` -/
def comment : P Unit :=
  pbind (popt whitespace) fun _ =>
  pbind (plitS "#") fun _ =>
  pmap (fun _ => ()) (pcls0 commentChar)

/-- `rule newline() = ['\r' | '\n']` (declared in the grammar, unused). -/
def newlineR : P Unit := pmap (fun _ => ()) (pcls fun c => c = '\r' || c = '\n')

/-- One iteration of the skip rule `_`: `comment()? whitespace()`. -/
def uscoreIter : P Unit := pbind (popt comment) fun _ => whitespace

/-- `rule _ = (comment()? whitespace())*` -/
def uscore : P Unit := pmap (fun _ => ()) (pstar uscoreIter)

/-- `rule number() = ['0'..='9']+` -/
def number : P (List Char) := pcls1 isDigitChar

/-- `rule sname() = ['A'..='Z' | 'a'..='z' | '0'..='9']+` -/
def sname : P (List Char) := pcls1 isSnameChar

/-- The reserved punctuation excluded from `ANY`. -/
def reservedChar (c : Char) : Bool :=
  ['\\', ',', '.', '=', '>', '(', ')', '*', '[', ']', '{', '}', '+', '?',
   '/', '-', '_', ':', '!', '~', '$', '@', '#', '&', '\n', '\r', ' '].contains c

/-- `rule any() = ("\\" [_]) / [^ ...reserved... ]` -/
def anyc : P Char :=
  porelse (pbind (plitS "\\") fun _ => pcls fun _ => true)
          (pcls fun c => !reservedChar c)

/-- `rule sstr1() = any()` -/
def sstr1 : P Char := anyc

/-- `rule sstr() = any()+` -/
def sstr : P (List Char) := pplus anyc

/-- `rule name() = sname()` -/
def nameP : P (List Char) := sname

/-- `rule text() = name() / sstr() "!"?` — value: (characters, negated?). -/
def textP : P (List Char × Bool) :=
  porelse (pmap (fun n => (n, false)) nameP)
          (pbind sstr fun w => pbind (popt (plitS "!")) fun ex =>
            ppure (w, ex.isSome))

/-! ## Syntax-tree values

The Rust code returns `()` from every rule except the statement rules,
which return the payload-free enum `Stmt`.  To state structural claims
we let each embedded rule additionally return the derivation it built;
this enriches the values without changing acceptance or consumption. -/

/-- `Stmt` exactly as in `lib.rs` (including the `Demonanizer` typo). -/
inductive Stmt where
  | featureDecl
  | diacriticDecl
  | symbolDecl
  | classDecl
  | elementDecl
  | syllableDecl
  | demonanizer
  | interRomanizer
  | romanizer
  | changeRule
  | standardExpression
deriving DecidableEq, Repr

/-- The interfix operators as the code parses them: `"&" / "!&" / ">"`. -/
inductive IOp where
  | inter
  | interNot
  | transf
deriving DecidableEq, Repr

/-- Values of `repeaterType`: an exact count `*N`, a range `*(lo-hi)`,
`+`, `*`, or `?`. -/
inductive RepT where
  | exactN (n : List Char)
  | rng (lo hi : Option (List Char))
  | atLeastOne
  | zeroOrMore
  | opt
deriving DecidableEq, Repr

/-- A `fancyMatrix` slot: `matrixValue`, `negatedValue`, `absentFeature`
or `featureVariable`. -/
inductive FVal where
  | val (sign : Option Char) (n : List Char)
  | nval (sign : Option Char) (n : List Char)
  | absent (n : List Char)
  | fvar (n : List Char)
deriving DecidableEq, Repr

/-- Derivations of the rule-element / environment grammar cluster. -/
inductive RE where
  | anySyl
  | elemRef (n : List Char)
  | capRef (inexact : Bool) (syl : Bool) (num : List Char)
  | fancy (vs : List FVal)
  | emptyE
  | sylB
  | wordB
  | betweenW
  | textE (w : List Char) (neg : Bool)
  | group (e : RE)
  | alts (es : List RE)
  | seqE (es : List RE)
  | ifx (es : List RE) (ops : List IOp)
  | negE (e : RE)
  | capE (e : RE) (inexact : Bool) (syl : Bool) (num : List Char)
  | repE (e : RE) (t : RepT)
  | withEnv (e : RE) (ce : RE)
  | envAnch (before after : Option RE)
  | envBare (e : RE)
  | envList (es : List RE)
  | cenv (cond excl : Option RE)

/-- A parsed `plusFeature`: (had syllable modifier, had `+`, name). -/
def PF : Type := Bool × Bool × List Char

/-- The two shapes of a `featureDecl` body. -/
inductive FDecl where
  | plusList (fs : List PF)
  | valued (modif : Bool) (n : List Char) (aliasV : Option (List Char))
      (vs : List (List Char))

/-- Which alternative the tail of `symbolDecl` took:
`("," _ symbolName())* / matrix()`. -/
inductive STail where
  | names (l : List (List Char × Bool))
  | mat (vs : List (Option Char × List Char))

/-! ## Non-recursive grammar rules -/

/-- `rule matrixValue() = ("+" / "-")? name()` -/
def matrixValue : P (Option Char × List Char) :=
  pbind (popt (porelse (pmap (fun _ => '+') (plitS "+"))
                       (pmap (fun _ => '-') (plitS "-")))) fun sg =>
  pbind nameP fun n => ppure (sg, n)

/-- `rule matrix() = "[" _ matrixValue()* "]" _` -/
def matrix : P (List (Option Char × List Char)) :=
  pbind (plitS "[") fun _ =>
  pbind uscore fun _ =>
  pbind (pstar matrixValue) fun vs =>
  pbind (plitS "]") fun _ =>
  pbind uscore fun _ => ppure vs

/-- `rule featureValue() = name()` -/
def featureValue : P (List Char) := nameP

/-- `rule nullAlias() = "*" _ featureValue()` -/
def nullAlias : P (List Char) :=
  pbind (plitS "*") fun _ => pbind uscore fun _ => featureValue

/-- `rule featureModifier() = "(Syllable)" / "syllable"` -/
def featureModifier : P Unit :=
  porelse (plitS "(Syllable)") (plitS "syllable")

/-- `rule plusFeature() = featureModifier()? "+"? _ name() _` -/
def plusFeature : P PF :=
  pbind (popt featureModifier) fun m =>
  pbind (popt (plitS "+")) fun pl =>
  pbind uscore fun _ =>
  pbind nameP fun n =>
  pbind uscore fun _ => ppure (m.isSome, pl.isSome, n)

/-- The body of `featureDecl` after the keyword:
`plusFeature() ** ("," _) / (featureModifier()? name() _ "(" _ (nullAlias() "," _)? featureValue() ++ ("," _) ")" _)` -/
def featureBody : P FDecl :=
  porelse
    (pmap FDecl.plusList
      (psepStar plusFeature (pbind (plitS ",") fun _ => uscore)))
    (pbind (popt featureModifier) fun m =>
     pbind nameP fun n =>
     pbind uscore fun _ =>
     pbind (plitS "(") fun _ =>
     pbind uscore fun _ =>
     pbind (popt (pbind nullAlias fun al =>
                  pbind (plitS ",") fun _ =>
                  pbind uscore fun _ => ppure al)) fun al =>
     pbind (psepPlus featureValue (pbind (plitS ",") fun _ => uscore)) fun vs =>
     pbind (plitS ")") fun _ =>
     pbind uscore fun _ => ppure (FDecl.valued m.isSome n al vs))

/-- `rule featureDecl() -> Stmt = ("Feature" / "feature") _ (...)` with the
parsed body kept. -/
def featureDeclFull : P FDecl :=
  pbind (porelse (plitS "Feature") (plitS "feature")) fun _ =>
  pbind uscore fun _ => featureBody

def featureDecl : P Stmt := pmap (fun _ => Stmt.featureDecl) featureDeclFull

/-- `rule diacriticModifier() = ("(Before)" / "(before)" / "(First)" / "(first)" / "(Floating)" / "(floating)") _` -/
def diacriticModifier : P Unit :=
  pbind (porelse (plitS "(Before)") (porelse (plitS "(before)")
        (porelse (plitS "(First)") (porelse (plitS "(first)")
        (porelse (plitS "(Floating)") (plitS "(floating)")))))) fun _ =>
  uscore

/-- `rule diacriticDecl() -> Stmt = ("Diacritic" / "diatritic") _ text() _ diacriticModifier()* matrix() diacriticModifier()*`
(the second literal is the source's misspelling). -/
def diacriticDecl : P Stmt :=
  pbind (porelse (plitS "Diacritic") (plitS "diatritic")) fun _ =>
  pbind uscore fun _ =>
  pbind textP fun _ =>
  pbind uscore fun _ =>
  pbind (pstar diacriticModifier) fun _ =>
  pbind matrix fun _ =>
  pbind (pstar diacriticModifier) fun _ => ppure Stmt.diacriticDecl

/-- `rule symbolName() = text() _` -/
def symbolName : P (List Char × Bool) :=
  pbind textP fun t => pbind uscore fun _ => ppure t

/-- The tail choice of `symbolDecl`: `("," _ symbolName())* / matrix()`. -/
def symbolTail : P STail :=
  porelse
    (pmap STail.names
      (pstar (pbind (plitS ",") fun _ => pbind uscore fun _ => symbolName)))
    (pmap STail.mat matrix)

/-- `rule symbolDecl() -> Stmt = ("Symbol" / "symbol") _ symbolName() _ (("," _ symbolName())* / matrix())` -/
def symbolDeclFull : P ((List Char × Bool) × STail) :=
  pbind (porelse (plitS "Symbol") (plitS "symbol")) fun _ =>
  pbind uscore fun _ =>
  pbind symbolName fun n =>
  pbind uscore fun _ =>
  pbind symbolTail fun t => ppure (n, t)

def symbolDecl : P Stmt := pmap (fun _ => Stmt.symbolDecl) symbolDeclFull

/-- `rule elementRef() = "@" name()` -/
def elementRef : P (List Char) :=
  pbind (plitS "@") fun _ => nameP

/-- `rule captureRef() = "~"? "$" "."? number()` -/
def captureRef : P (Bool × Bool × List Char) :=
  pbind (popt (plitS "~")) fun ix =>
  pbind (plitS "$") fun _ =>
  pbind (popt (plitS ".")) fun sb =>
  pbind number fun n => ppure (ix.isSome, sb.isSome, n)

/-- `rule negatedValue() = "!" matrixValue()` -/
def negatedValue : P (Option Char × List Char) :=
  pbind (plitS "!") fun _ => matrixValue

/-- `rule absentFeature() = "*" name()` -/
def absentFeature : P (List Char) :=
  pbind (plitS "*") fun _ => nameP

/-- `rule featureVariable() = "$" name()` -/
def featureVariable : P (List Char) :=
  pbind (plitS "$") fun _ => nameP

/-- `rule fancyMatrix() = "[" _ (matrixValue() / negatedValue() / absentFeature() / featureVariable())* "]" _` -/
def fancyMatrix : P (List FVal) :=
  pbind (plitS "[") fun _ =>
  pbind uscore fun _ =>
  pbind (pstar (porelse (pmap (fun v => FVal.val v.1 v.2) matrixValue)
               (porelse (pmap (fun v => FVal.nval v.1 v.2) negatedValue)
               (porelse (pmap FVal.absent absentFeature)
                        (pmap FVal.fvar featureVariable))))) fun vs =>
  pbind (plitS "]") fun _ =>
  pbind uscore fun _ => ppure vs

/-- `rule empty() = "*" _` -/
def emptyP : P Unit :=
  pbind (plitS "*") fun _ => uscore

/-- `rule repeatRange() = "*" (number() / ("(" _ number()? "-" number()? ")" _))` -/
def repeatRange : P RepT :=
  pbind (plitS "*") fun _ =>
  porelse (pmap RepT.exactN number)
    (pbind (plitS "(") fun _ =>
     pbind uscore fun _ =>
     pbind (popt number) fun lo =>
     pbind (plitS "-") fun _ =>
     pbind (popt number) fun hi =>
     pbind (plitS ")") fun _ =>
     pbind uscore fun _ => ppure (RepT.rng lo hi))

/-- `rule repeaterType() = repeatRange() / "+" _ / "*" _ / "?" _` -/
def repeaterType : P RepT :=
  porelse repeatRange
    (porelse (pbind (plitS "+") fun _ => pbind uscore fun _ => ppure RepT.atLeastOne)
    (porelse (pbind (plitS "*") fun _ => pbind uscore fun _ => ppure RepT.zeroOrMore)
             (pbind (plitS "?") fun _ => pbind uscore fun _ => ppure RepT.opt)))

/-- `rule simple() = ("<Syl>" / "<syl>") _ / elementRef() / captureRef() / fancyMatrix() / empty() / ("." _) / ("$" _) / ("$$" _) / text()` -/
def simpleP : P RE :=
  porelse (pbind (porelse (plitS "<Syl>") (plitS "<syl>")) fun _ =>
           pbind uscore fun _ => ppure RE.anySyl)
  (porelse (pmap RE.elemRef elementRef)
  (porelse (pmap (fun r => RE.capRef r.1 r.2.1 r.2.2) captureRef)
  (porelse (pmap RE.fancy fancyMatrix)
  (porelse (pmap (fun _ => RE.emptyE) emptyP)
  (porelse (pbind (plitS ".") fun _ => pbind uscore fun _ => ppure RE.sylB)
  (porelse (pbind (plitS "$") fun _ => pbind uscore fun _ => ppure RE.wordB)
  (porelse (pbind (plitS "$$") fun _ => pbind uscore fun _ => ppure RE.betweenW)
           (pmap (fun t => RE.textE t.1 t.2) textP))))))))

/-- `rule classElement() = elementRef() / text()` -/
def classElement : P Unit :=
  porelse (pmap (fun _ => ()) elementRef) (pmap (fun _ => ()) textP)

/-- `rule classDecl() -> Stmt = ("Class" / "class") _ name() _ "{" _ classElement() ** ("," _) ","? "}" _` -/
def classDecl : P Stmt :=
  pbind (porelse (plitS "Class") (plitS "class")) fun _ =>
  pbind uscore fun _ =>
  pbind nameP fun _ =>
  pbind uscore fun _ =>
  pbind (plitS "\x7b") fun _ =>
  pbind uscore fun _ =>
  pbind (psepStar classElement (pbind (plitS ",") fun _ => uscore)) fun _ =>
  pbind (popt (plitS ",")) fun _ =>
  pbind (plitS "\x7d") fun _ =>
  pbind uscore fun _ => ppure Stmt.classDecl

/-- `rule keywordExpression() = ("Unchanged" / "Unchanged") / ("Off" / "off") _`
(the lowercase `unchanged` spelling is absent in the source). -/
def keywordExpression : P Unit :=
  porelse (porelse (plitS "Unchanged") (plitS "Unchanged"))
          (pbind (porelse (plitS "Off") (plitS "off")) fun _ => uscore)

/-- `rule keywordModifier() = (("ltr" / "Ltr") / ("Rtl" / "Rtl") / ("Propagate" / "propagate") / ("Defer" / "defer") / ("Cleanup" / "cleanup")) _ / name()` -/
def keywordModifier : P Unit :=
  porelse
    (pbind (porelse (porelse (plitS "ltr") (plitS "Ltr"))
           (porelse (porelse (plitS "Rtl") (plitS "Rtl"))
           (porelse (porelse (plitS "Propagate") (plitS "propagate"))
           (porelse (porelse (plitS "Defer") (plitS "defer"))
                    (porelse (plitS "Cleanup") (plitS "cleanup")))))) fun _ =>
     uscore)
    (pmap (fun _ => ()) nameP)

/-- `rule ruleName() = name() ("-" (name() / number()))*` -/
def ruleName : P (List Char) :=
  pbind nameP fun n =>
  pbind (pstar (pbind (plitS "-") fun _ =>
                porelse nameP number)) fun _ => ppure n

/-- `rule blockRef() = ":" ruleName()` -/
def blockRef : P Unit :=
  pbind (plitS ":") fun _ => pmap (fun _ => ()) ruleName

/-- `rule filter() = elementRef() / fancyMatrix()` -/
def filterP : P Unit :=
  porelse (pmap (fun _ => ()) elementRef) (pmap (fun _ => ()) fancyMatrix)

/-- `rule changeRuleModifier() = filter() / keywordModifier()` -/
def changeRuleModifier : P Unit := porelse filterP keywordModifier

/-- `rule blockType() = (("Then" / "then") / ("Else" / "else")) _ changeRuleModifier()*` -/
def blockType : P Unit :=
  pbind (porelse (porelse (plitS "Then") (plitS "then"))
                 (porelse (plitS "Else") (plitS "else"))) fun _ =>
  pbind uscore fun _ =>
  pmap (fun _ => ()) (pstar changeRuleModifier)

/-! ## The mutually recursive rule-element cluster

`ruleElement`, `unconditionalRuleElement`, `bounded`, `sequence`,
`interfix`, `negated`, `postfix`, `capture`, `repeater`,
`compoundEnvironment`, `condition`, `exclusion`, `environmentList` and
`environment` are mutually recursive in the source.  We realize them as
one function dispatching on a rule tag, with a nesting fuel that
decreases by one at every rule call; named wrappers follow. -/

inductive ETag where
  | ruleElem
  | uncond
  | freeElem
  | bounded
  | ifxR
  | ifxElem
  | negd
  | postE
  | capt
  | rept
  | compEnv
  | cond
  | excl
  | envL
  | env
deriving DecidableEq, Repr

/-- `interfixType`, as written in the source: `"&" / "!&" / ">"` (note the
source's `"!&"`, not the documented `&!`). -/
def interfixOp : P IOp :=
  porelse (pmap (fun _ => IOp.inter) (plitS "&"))
  (porelse (pmap (fun _ => IOp.interNot) (plitS "!&"))
           (pmap (fun _ => IOp.transf) (plitS ">")))

/-- One-stepped interpreter of the recursive element rules
(`lib.rs` lines 179-224 plus 199-213), tag by tag:
* `ruleElem`: `unconditionalRuleElement() compoundEnvironment()?`
* `uncond`: `bounded() / interfix() / negated() / postfix() / simple() / sequence()`,
  with the first five alternatives shared with `sequence` as `freeElement`
* `freeElem`: `bounded() / interfix() / negated() / postfix() / simple()`
* `bounded`: `"(" _ ruleElement() ")" _ / "{" _ ruleElement() ++ ("," _) "}" _`
* `ifxR`: `interfixElement() (("&" / "!&" / ">") _ interfixElement())+`
* `ifxElem`: `bounded() / negated() / postfix() / simple()`
* `negd`: `"!" (bounded() / simple())`
* `postE`: `capture() / repeater()`
* `capt`: `(bounded() / negated() / simple()) captureRef()`
* `rept`: `(bounded() / simple()) repeaterType()`
* `compEnv`: `condition() / exclusion() / (condition() exclusion())`
* `cond`: `"/" _ (environment() / environmentList())`
* `excl`: `"//" _ (environment() / environmentList())`
* `envL`: `"{" _ environment() ++ ("," _) "}" _`
* `env`: `unconditionalRuleElement()? "_" _ unconditionalRuleElement()? / unconditionalRuleElement()` -/
def parseElem : Nat → ETag → P RE
  | 0, _ => pfail
  | f + 1, t =>
    match t with
    | .ruleElem =>
        pbind (parseElem f .uncond) fun e =>
        pbind (popt (parseElem f .compEnv)) fun ce =>
        ppure (match ce with | none => e | some c => RE.withEnv e c)
    | .uncond =>
        porelse (parseElem f .freeElem)
                (pmap RE.seqE (pplus (parseElem f .freeElem)))
    | .freeElem =>
        porelse (parseElem f .bounded)
        (porelse (parseElem f .ifxR)
        (porelse (parseElem f .negd)
        (porelse (parseElem f .postE) simpleP)))
    | .bounded =>
        porelse
          (pbind (plitS "(") fun _ => pbind uscore fun _ =>
           pbind (parseElem f .ruleElem) fun e =>
           pbind (plitS ")") fun _ => pbind uscore fun _ => ppure (RE.group e))
          (pbind (plitS "\x7b") fun _ => pbind uscore fun _ =>
           pbind (psepPlus (parseElem f .ruleElem)
                           (pbind (plitS ",") fun _ => uscore)) fun es =>
           pbind (plitS "\x7d") fun _ => pbind uscore fun _ => ppure (RE.alts es))
    | .ifxR =>
        pbind (parseElem f .ifxElem) fun e0 =>
        pbind (pplus (pbind interfixOp fun op =>
                      pbind uscore fun _ =>
                      pbind (parseElem f .ifxElem) fun e =>
                      ppure (op, e))) fun rest =>
        ppure (RE.ifx (e0 :: rest.map Prod.snd) (rest.map Prod.fst))
    | .ifxElem =>
        porelse (parseElem f .bounded)
        (porelse (parseElem f .negd)
        (porelse (parseElem f .postE) simpleP))
    | .negd =>
        pbind (plitS "!") fun _ =>
        pmap RE.negE (porelse (parseElem f .bounded) simpleP)
    | .postE => porelse (parseElem f .capt) (parseElem f .rept)
    | .capt =>
        pbind (porelse (parseElem f .bounded)
              (porelse (parseElem f .negd) simpleP)) fun e =>
        pbind captureRef fun r => ppure (RE.capE e r.1 r.2.1 r.2.2)
    | .rept =>
        pbind (porelse (parseElem f .bounded) simpleP) fun e =>
        pbind repeaterType fun rt => ppure (RE.repE e rt)
    | .compEnv =>
        porelse (pmap (fun c => RE.cenv (some c) none) (parseElem f .cond))
        (porelse (pmap (fun e => RE.cenv none (some e)) (parseElem f .excl))
                 (pbind (parseElem f .cond) fun c =>
                  pmap (fun e => RE.cenv (some c) (some e)) (parseElem f .excl)))
    | .cond =>
        pbind (plitS "/") fun _ => pbind uscore fun _ =>
        porelse (parseElem f .env) (parseElem f .envL)
    | .excl =>
        pbind (plitS "//") fun _ => pbind uscore fun _ =>
        porelse (parseElem f .env) (parseElem f .envL)
    | .envL =>
        pbind (plitS "\x7b") fun _ => pbind uscore fun _ =>
        pbind (psepPlus (parseElem f .env)
                        (pbind (plitS ",") fun _ => uscore)) fun es =>
        pbind (plitS "\x7d") fun _ => pbind uscore fun _ => ppure (RE.envList es)
    | .env =>
        porelse
          (pbind (popt (parseElem f .uncond)) fun b =>
           pbind (plitS "_") fun _ => pbind uscore fun _ =>
           pbind (popt (parseElem f .uncond)) fun a =>
           ppure (RE.envAnch b a))
          (pmap RE.envBare (parseElem f .uncond))

/-- `rule ruleElement() = unconditionalRuleElement() compoundEnvironment()?` -/
def ruleElement (f : Nat) : P RE := parseElem f .ruleElem

/-- `rule unconditionalRuleElement() = bounded() / interfix() / negated() / postfix() / simple() / sequence()` -/
def unconditionalRuleElement (f : Nat) : P RE := parseElem f .uncond

/-- `freeElement: bounded | interfix | negated | postfix | simple` -/
def freeElement (f : Nat) : P RE := parseElem f .freeElem

def boundedP (f : Nat) : P RE := parseElem f .bounded

/-- `rule sequence() = (bounded() / interfix() / negated() / postfix() / simple())+` -/
def sequenceR (f : Nat) : P RE := pmap RE.seqE (pplus (parseElem f .freeElem))

def interfix (f : Nat) : P RE := parseElem f .ifxR

def interfixElement (f : Nat) : P RE := parseElem f .ifxElem

def negated (f : Nat) : P RE := parseElem f .negd

def postfixElem (f : Nat) : P RE := parseElem f .postE

def captureP (f : Nat) : P RE := parseElem f .capt

def repeaterP (f : Nat) : P RE := parseElem f .rept

/-- `rule compoundEnvironment() = condition() / exclusion() / (condition() exclusion())` -/
def compoundEnvironment (f : Nat) : P RE := parseElem f .compEnv

def conditionP (f : Nat) : P RE := parseElem f .cond

def exclusionP (f : Nat) : P RE := parseElem f .excl

def environmentP (f : Nat) : P RE := parseElem f .env

def environmentList (f : Nat) : P RE := parseElem f .envL

/-! ## Statement rules -/

/-- `rule standardExpression() -> Stmt = ruleElement() "=>" _ unconditionalRuleElement() compoundEnvironment()?`,
keeping from / to / environment. -/
def standardExpressionFull (f : Nat) : P (RE × RE × Option RE) :=
  pbind (ruleElement f) fun fr =>
  pbind (plitS "=>") fun _ =>
  pbind uscore fun _ =>
  pbind (unconditionalRuleElement f) fun toE =>
  pbind (popt (compoundEnvironment f)) fun ce => ppure (fr, toE, ce)

def standardExpression (f : Nat) : P Stmt :=
  pmap (fun _ => Stmt.standardExpression) (standardExpressionFull f)

/-- `rule elementDecl() -> Stmt = ("Element" / "element") _ name() _ ruleElement()` -/
def elementDecl (f : Nat) : P Stmt :=
  pbind (porelse (plitS "Element") (plitS "element")) fun _ =>
  pbind uscore fun _ =>
  pbind nameP fun _ =>
  pbind uscore fun _ =>
  pbind (ruleElement f) fun _ => ppure Stmt.elementDecl

/-- `rule reluctantOnset() = unconditionalRuleElement()` -/
def reluctantOnset (f : Nat) : P RE := unconditionalRuleElement f

/-- `rule structuredPattern() = (reluctantOnset() "?:" _)? unconditionalRuleElement() "::" _ unconditionalRuleElement() ("::" _ unconditionalRuleElement())?` -/
def structuredPattern (f : Nat) : P Unit :=
  pbind (popt (pbind (reluctantOnset f) fun _ =>
               pbind (plitS "?:") fun _ => uscore)) fun _ =>
  pbind (unconditionalRuleElement f) fun _ =>
  pbind (plitS "::") fun _ =>
  pbind uscore fun _ =>
  pbind (unconditionalRuleElement f) fun _ =>
  pbind (popt (pbind (plitS "::") fun _ =>
               pbind uscore fun _ =>
               pmap (fun _ => ()) (unconditionalRuleElement f))) fun _ =>
  ppure ()

/-- `rule syllablePattern() = structuredPattern() / ruleElement()` -/
def syllablePattern (f : Nat) : P Unit :=
  porelse (structuredPattern f) (pmap (fun _ => ()) (ruleElement f))

/-- `rule syllableExpression() = syllablePattern() ("=>" _ matrix())? compoundEnvironment()?` -/
def syllableExpression (f : Nat) : P Unit :=
  pbind (syllablePattern f) fun _ =>
  pbind (popt (pbind (plitS "=>") fun _ =>
               pbind uscore fun _ => matrix)) fun _ =>
  pbind (popt (compoundEnvironment f)) fun _ => ppure ()

/-- `rule syllableDecl() -> Stmt = ("Syllable" / "syllable") _ ":" _ (("Explicit" / "explicit") _ / ("Clear" / "clear") _ / syllableExpression()+)` -/
def syllableDecl (f : Nat) : P Stmt :=
  pbind (porelse (plitS "Syllable") (plitS "syllable")) fun _ =>
  pbind uscore fun _ =>
  pbind (plitS ":") fun _ =>
  pbind uscore fun _ =>
  pbind (porelse (pbind (porelse (plitS "Explicit") (plitS "explicit")) fun _ => uscore)
        (porelse (pbind (porelse (plitS "Clear") (plitS "clear")) fun _ => uscore)
                 (pmap (fun _ => ()) (pplus (syllableExpression f))))) fun _ =>
  ppure Stmt.syllableDecl

/-! ## The block cluster

`block`, `blockElement`, `expressionList` and `expression` are mutually
recursive through the parenthesized-sub-block alternative; same tagged
treatment. -/

inductive BTag where
  | block
  | blockElem
  | exprList
  | expr
deriving DecidableEq, Repr

/-- * `block`: `blockElement() _ (blockType() ":" _ blockElement())*`
* `blockElem`: `expressionList() / "(" _ block() ")" _`
* `exprList`: `expression()*`
* `expr`: `keywordExpression() / blockRef() / standardExpression()` -/
def parseB : Nat → BTag → P Unit
  | 0, _ => pfail
  | f + 1, t =>
    match t with
    | .block =>
        pbind (parseB f .blockElem) fun _ =>
        pbind uscore fun _ =>
        pmap (fun _ => ())
          (pstar (pbind blockType fun _ =>
                  pbind (plitS ":") fun _ =>
                  pbind uscore fun _ => parseB f .blockElem))
    | .blockElem =>
        porelse (parseB f .exprList)
          (pbind (plitS "(") fun _ =>
           pbind uscore fun _ =>
           pbind (parseB f .block) fun _ =>
           pbind (plitS ")") fun _ =>
           pbind uscore fun _ => ppure ())
    | .exprList => pmap (fun _ => ()) (pstar (parseB f .expr))
    | .expr =>
        porelse keywordExpression
        (porelse blockRef (pmap (fun _ => ()) (standardExpressionFull f)))

def block (f : Nat) : P Unit := parseB f .block

def blockElement (f : Nat) : P Unit := parseB f .blockElem

def expressionList (f : Nat) : P Unit := parseB f .exprList

def expression (f : Nat) : P Unit := parseB f .expr

/-- `rule deromanizer() -> Stmt = ("Deromanizer" / "deromanizer") _ ("Literal" / "literal") _ ":" _ block()` -/
def deromanizer (f : Nat) : P Stmt :=
  pbind (porelse (plitS "Deromanizer") (plitS "deromanizer")) fun _ =>
  pbind uscore fun _ =>
  pbind (porelse (plitS "Literal") (plitS "literal")) fun _ =>
  pbind uscore fun _ =>
  pbind (plitS ":") fun _ =>
  pbind uscore fun _ =>
  pbind (block f) fun _ => ppure Stmt.demonanizer

/-- `rule romanizer() -> Stmt = ("Romanizer" / "romanizer") _ ("Literal" / "literal") _ ":" _ block()` -/
def romanizer (f : Nat) : P Stmt :=
  pbind (porelse (plitS "Romanizer") (plitS "romanizer")) fun _ =>
  pbind uscore fun _ =>
  pbind (porelse (plitS "Literal") (plitS "literal")) fun _ =>
  pbind uscore fun _ =>
  pbind (plitS ":") fun _ =>
  pbind uscore fun _ =>
  pbind (block f) fun _ => ppure Stmt.romanizer

/-- `rule interRomanizer() -> Stmt = ("Romanizer-" / "romanizer-") ruleName() _ ("Literal" / "literal") _ ":" _ block()` -/
def interRomanizer (f : Nat) : P Stmt :=
  pbind (porelse (plitS "Romanizer-") (plitS "romanizer-")) fun _ =>
  pbind ruleName fun _ =>
  pbind uscore fun _ =>
  pbind (porelse (plitS "Literal") (plitS "literal")) fun _ =>
  pbind uscore fun _ =>
  pbind (plitS ":") fun _ =>
  pbind uscore fun _ =>
  pbind (block f) fun _ => ppure Stmt.interRomanizer

/-- `rule changeRule() -> Stmt = ruleName() _ (changeRuleModifier())* ":"? _ block()` -/
def changeRule (f : Nat) : P Stmt :=
  pbind ruleName fun _ =>
  pbind uscore fun _ =>
  pbind (pstar changeRuleModifier) fun _ =>
  pbind (popt (plitS ":")) fun _ =>
  pbind uscore fun _ =>
  pbind (block f) fun _ => ppure Stmt.changeRule

/-- `rule statement() -> Stmt = featureDecl() / diacriticDecl() / symbolDecl() / classDecl() / elementDecl() / syllableDecl() / deromanizer() / interRomanizer() / romanizer() / changeRule() / standardExpression()` -/
def statement (f : Nat) : P Stmt :=
  porelse featureDecl
  (porelse diacriticDecl
  (porelse symbolDecl
  (porelse classDecl
  (porelse (elementDecl f)
  (porelse (syllableDecl f)
  (porelse (deromanizer f)
  (porelse (interRomanizer f)
  (porelse (romanizer f)
  (porelse (changeRule f) (standardExpression f))))))))))

/-- `pub rule lsc_file() -> Vec<Stmt> = _ r:statement()*`, with rust-peg's
implicit requirement that the whole input be consumed.  The nesting fuel
`8 * length + 64` exceeds any derivation depth reachable on the input. -/
def lsc_file (s : List Char) : Option (List Stmt) :=
  match (pbind uscore fun _ => pstar (statement (8 * s.length + 64))) s with
  | some (sts, []) => some sts
  | _ => none

/-- Parse a whole source file given as a string. -/
def parseFile (s : String) : Option (List Stmt) := lsc_file s.data

/-! ## Shape classifiers (used to state negative structural facts) -/

/-- Is this derivation a `sequence` node? -/
def RE.isSeq : RE → Bool
  | .seqE _ => true
  | _ => false

/-- Is this derivation a `repeater` (postfix repeat) node? -/
def RE.isRep : RE → Bool
  | .repE _ _ => true
  | _ => false

/-- Does this compound environment carry both a condition and an exclusion? -/
def isBothCE : RE → Bool
  | .cenv (some _) (some _) => true
  | _ => false

/-- Did the `symbolDecl` tail take the matrix alternative? -/
def STail.isMat : STail → Bool
  | .mat _ => true
  | _ => false

/-! ## Auxiliary predicates used in the general theorems -/

/-- The head of `s` (if any) does not satisfy `p`. -/
def headNo (p : Char → Bool) : List Char → Prop
  | [] => True
  | c :: _ => p c = false

/-- Input on which the skip rule `_` can make no progress: empty, or a
head that is neither whitespace nor a comment start. -/
def stopU : List Char → Prop
  | [] => True
  | c :: _ => wsChar c = false ∧ c ≠ '#'

/-- A valid feature name for the boolean-feature list: nonempty,
alphanumeric, and not the bare keyword `syllable` (which the grammar's
`featureModifier` consumes, leaving no name). -/
def GoodName (x : List Char) : Prop :=
  x ≠ [] ∧ (∀ c ∈ x, isSnameChar c = true) ∧ x ≠ "syllable".data

/-- `w` is a prefix of `s`. -/
def IsPre (w s : List Char) : Prop := ∃ t, w ++ t = s

/-- The rest of the input after a feature name: nothing, or a list
separator. -/
def CommaRest (r : List Char) : Prop := r = [] ∨ ∃ t, r = ',' :: t

/-- Building blocks of an input consisting only of whitespace and
comments: a single whitespace character, or a comment (`#` plus a body
free of line breaks) terminated by a line break. -/
inductive Blk where
  | wsB (c : Char)
  | cmt (body : List Char) (nl : Char)

/-- The text of one block. -/
def blkStr : Blk → List Char
  | .wsB c => [c]
  | .cmt body nl => '#' :: (body ++ [nl])

/-- The text of a sequence of blocks. -/
def blanks : List Blk → List Char
  | [] => []
  | b :: bs => blkStr b ++ blanks bs

/-- Wellformedness of a block: whitespace really is whitespace, comment
bodies contain no line break, and the comment terminator is one. -/
def BlkOK : Blk → Prop
  | .wsB c => wsChar c = true
  | .cmt body nl => (∀ ch ∈ body, commentChar ch = true) ∧ (nl = '\n' ∨ nl = '\r')

/-- Strings made of whitespace and line-break-terminated comments. -/
inductive Blankish : List Char → Prop where
  | nil : Blankish []
  | ws (c : Char) (hc : wsChar c = true) (s : List Char) (hs : Blankish s) :
      Blankish (c :: s)
  | cm (body : List Char) (hb : ∀ ch ∈ body, commentChar ch = true)
      (nl : Char) (hw : wsChar nl = true) (hn : commentChar nl = false)
      (s : List Char) (hs : Blankish s) :
      Blankish ('#' :: (body ++ nl :: s))

/-! ## Lemmas about the combinators and scanner -/

theorem plit_append (w r : List Char) : plit w (w ++ r) = some ((), r) := by
  induction w with
  | nil => rfl
  | cons c w ih => simp [plit, ih]

theorem plit_eq_some {w s t : List Char} :
    plit w s = some ((), t) ↔ s = w ++ t := by
  induction w generalizing s with
  | nil => simp [plit]
  | cons c w ih =>
    cases s with
    | nil => simp [plit]
    | cons d s =>
      by_cases hcd : c = d
      · subst hcd
        simp [plit, ih]
      · simp [plit, hcd, Ne.symm hcd]

theorem plit_none {w s : List Char} (h : ∀ t, s ≠ w ++ t) : plit w s = none := by
  cases hp : plit w s with
  | none => rfl
  | some r =>
    obtain ⟨⟨⟩, t⟩ := r
    exact absurd (plit_eq_some.mp hp) (h t)

theorem plit_cons_none {c d : Char} {w s : List Char} (h : c ≠ d) :
    plit (c :: w) (d :: s) = none := by
  simp [plit, h]

theorem tws_stop {p : Char → Bool} {r : List Char} (h : headNo p r) :
    takeWhileSplit p r = ([], r) := by
  cases r with
  | nil => rfl
  | cons c r => simp [takeWhileSplit, headNo] at h ⊢; simp [h]

theorem tws_append {p : Char → Bool} {w r : List Char}
    (hw : ∀ c ∈ w, p c = true) (hr : headNo p r) :
    takeWhileSplit p (w ++ r) = (w, r) := by
  induction w with
  | nil => simpa using tws_stop hr
  | cons c w ih =>
    have hc : p c = true := hw c (by simp)
    have hw' : ∀ a ∈ w, p a = true := fun a ha => hw a (by simp [ha])
    simp [takeWhileSplit, hc, ih hw']

theorem pcls1_append {p : Char → Bool} {c : Char} {w r : List Char}
    (hc : p c = true) (hw : ∀ a ∈ w, p a = true) (hr : headNo p r) :
    pcls1 p (c :: w ++ r) = some (c :: w, r) := by
  simp [pcls1, hc, tws_append hw hr]

theorem pcls1_cons_none {p : Char → Bool} {c : Char} {s : List Char}
    (h : p c = false) : pcls1 p (c :: s) = none := by
  simp [pcls1, h]

theorem uscoreIter_stop {s : List Char} (h : stopU s) : uscoreIter s = none := by
  cases s with
  | nil => rfl
  | cons c s =>
    obtain ⟨hws, hne⟩ := h
    have hws' : whitespace (c :: s) = none := by
      simp [whitespace, pmap, pcls1_cons_none hws]
    have hpl : plit ['#'] (c :: s) = none := plit_cons_none (Ne.symm hne)
    have hcm : comment (c :: s) = none := by
      simp [comment, pbind, popt, hws', plitS, hpl]
    simp [uscoreIter, pbind, popt, hcm, hws']

theorem pmanyF_stop {α : Type} {p : P α} {s : List Char} (h : p s = none) :
    ∀ f, pmanyF p f s = ([], s) := by
  intro f
  cases f with
  | zero => rfl
  | succ f => simp [pmanyF, h]

theorem pmanyF_step {α : Type} {p : P α} {s t : List Char} {a : α}
    (h : p s = some (a, t)) (f : Nat) :
    pmanyF p (f + 1) s = ((a :: (pmanyF p f t).1, (pmanyF p f t).2)) := by
  simp [pmanyF, h]

theorem uscore_stop {s : List Char} (h : stopU s) : uscore s = some ((), s) := by
  simp [uscore, pstar, pmap, pmanyF_stop (uscoreIter_stop h)]

theorem uscore_nil : uscore [] = some ((), []) := rfl

/-- Facts about the name character class. -/
theorem sname_char_ne {c : Char} (h : isSnameChar c = true) {d : Char}
    (hd : isSnameChar d = false) : c ≠ d := by
  intro e; subst e; rw [h] at hd; cases hd

theorem sname_not_ws {c : Char} (h : isSnameChar c = true) : wsChar c = false := by
  cases hw : wsChar c with
  | false => rfl
  | true =>
    exfalso
    simp only [wsChar, Bool.or_eq_true, decide_eq_true_eq] at hw
    rcases hw with ((h1 | h1) | h1) | h1 <;> subst h1 <;>
      exact absurd h (by decide)

theorem stopU_of_sname {s : List Char}
    (h : s = [] ∨ ∃ c t, s = c :: t ∧ isSnameChar c = true) : stopU s := by
  rcases h with rfl | ⟨c, t, rfl, hc⟩
  · trivial
  · exact ⟨sname_not_ws hc, sname_char_ne hc (by decide)⟩

/-- A single whitespace character before a non-whitespace, non-comment
continuation is consumed whole by the skip rule `_`. -/
theorem uscore_ws1 {c : Char} {r : List Char} (hc : wsChar c = true)
    (hr : stopU r) : uscore (c :: r) = some ((), r) := by
  have htw : takeWhileSplit wsChar r = ([], r) := by
    cases r with
    | nil => rfl
    | cons d r => exact tws_stop hr.1
  have hws : whitespace (c :: r) = some ((), r) := by
    simp [whitespace, pmap, pcls1, hc, htw]
  have hpl : plit ['#'] r = none := by
    cases r with
    | nil => rfl
    | cons d r => exact plit_cons_none (Ne.symm hr.2)
  have hcm : comment (c :: r) = none := by
    simp [comment, pbind, popt, hws, plitS, hpl]
  have hit : uscoreIter (c :: r) = some ((), r) := by
    simp [uscoreIter, pbind, popt, hcm, hws]
  show (match (pstar uscoreIter) (c :: r) with
        | none => none
        | some (a, t) => some ((), t)) = some ((), r)
  simp only [pstar, List.length_cons]
  rw [pmanyF_step (p := uscoreIter) hit (r.length + 1),
      pmanyF_stop (uscoreIter_stop hr)]

/-! ## No rule of the element cluster accepts empty input -/

theorem simpleP_nil : simpleP [] = none := rfl

theorem parseElem_nil : ∀ (f : Nat) (t : ETag), parseElem f t [] = none := by
  intro f
  induction f with
  | zero => intro t; rfl
  | succ f ih =>
    intro t
    cases t <;>
      simp [parseElem, pbind, porelse, pmap, popt, pplus, psepPlus, ppure,
            pfail, ih, simpleP_nil, plitS, plit]

theorem statement_nil (f : Nat) : statement f [] = none := by
  have hse : standardExpression f [] = none := by
    simp [standardExpression, standardExpressionFull, pmap, pbind, ruleElement,
          parseElem_nil]
  have h1 : featureDecl ([] : List Char) = none := rfl
  have h2 : diacriticDecl ([] : List Char) = none := rfl
  have h3 : symbolDecl ([] : List Char) = none := rfl
  have h4 : classDecl ([] : List Char) = none := rfl
  have h5 : elementDecl f [] = none := rfl
  have h6 : syllableDecl f [] = none := rfl
  have h7 : deromanizer f [] = none := rfl
  have h8 : interRomanizer f [] = none := rfl
  have h9 : romanizer f [] = none := rfl
  have h10 : changeRule f [] = none := rfl
  simp [statement, porelse, h1, h2, h3, h4, h5, h6, h7, h8, h9, h10, hse]

/-! ## Parsing a comma-separated boolean feature list -/

theorem IsPre_split {w x r : List Char} (h : IsPre w (x ++ r)) :
    IsPre w x ∨ ∃ w2, w = x ++ w2 ∧ IsPre w2 r := by
  induction x generalizing w with
  | nil => exact Or.inr ⟨w, rfl, h⟩
  | cons c x ih =>
    cases w with
    | nil => exact Or.inl ⟨c :: x, rfl⟩
    | cons d w =>
      obtain ⟨u, hu⟩ := h
      rw [List.cons_append] at hu
      injection hu with h1 h2
      subst h1
      rcases ih ⟨u, h2⟩ with hl | ⟨w2, rfl, hr⟩
      · obtain ⟨t, ht⟩ := hl
        exact Or.inl ⟨t, by rw [List.cons_append, ht]⟩
      · exact Or.inr ⟨w2, by rw [List.cons_append], hr⟩

theorem plit_fail_of_not_pre {w s : List Char} (h : ¬ IsPre w s) :
    plit w s = none :=
  plit_none fun t ht => h ⟨t, ht.symm⟩

theorem goodName_cons {x : List Char} (hg : GoodName x) :
    ∃ c t, x = c :: t ∧ isSnameChar c = true := by
  obtain ⟨hx, ha, -⟩ := hg
  cases x with
  | nil => exact absurd rfl hx
  | cons c t => exact ⟨c, t, rfl, ha c (by simp)⟩

theorem commaRest_stopU {r : List Char} (h : CommaRest r) : stopU r := by
  rcases h with rfl | ⟨t, rfl⟩
  · trivial
  · exact ⟨by decide, by decide⟩

theorem commaRest_headNo {r : List Char} (h : CommaRest r) :
    headNo isSnameChar r := by
  rcases h with rfl | ⟨t, rfl⟩
  · trivial
  · show isSnameChar ',' = false
    decide

theorem nameP_run {x r : List Char} (hx : x ≠ [])
    (ha : ∀ c ∈ x, isSnameChar c = true) (hr : headNo isSnameChar r) :
    nameP (x ++ r) = some (x, r) := by
  cases x with
  | nil => exact absurd rfl hx
  | cons c w =>
    exact pcls1_append (ha c (by simp)) (fun a haw => ha a (by simp [haw])) hr

/-- A good name followed by a comma or the end of input is consumed
exactly by `plusFeature`. -/
theorem plusFeature_run {x r : List Char} (hg : GoodName x) (hr : CommaRest r) :
    ∃ v, plusFeature (x ++ r) = some (v, r) := by
  obtain ⟨c0, t0, hx0, hc0⟩ := goodName_cons hg
  have hstopR : stopU r := commaRest_stopU hr
  have hheadR : headNo isSnameChar r := commaRest_headNo hr
  by_cases hp : IsPre "syllable".data x
  · obtain ⟨t, ht⟩ := hp
    have htne : t ≠ [] := by
      intro h0
      subst h0
      exact hg.2.2 (by simpa using ht.symm)
    obtain ⟨d, t2, rfl⟩ : ∃ d t2, t = d :: t2 := by
      cases t with
      | nil => exact absurd rfl htne
      | cons d t2 => exact ⟨d, t2, rfl⟩
    have hdt : ∀ a ∈ d :: t2, isSnameChar a = true := fun a haMem =>
      hg.2.1 a (by rw [← ht]; exact List.mem_append_right _ haMem)
    have hd : isSnameChar d = true := hdt d (by simp)
    have hin : x ++ r = "syllable".data ++ (d :: (t2 ++ r)) := by
      conv_lhs => rw [← ht]
      simp [List.append_assoc]
    have hhead : x ++ r = c0 :: (t0 ++ r) := by rw [hx0]; rfl
    have hparen : plit "(Syllable)".data (x ++ r) = none := by
      rw [hhead]
      exact plit_cons_none (Ne.symm (sname_char_ne hc0 (by decide)))
    have hsyl : plit "syllable".data (x ++ r) = some ((), d :: (t2 ++ r)) := by
      rw [hin]; exact plit_append _ _
    have hfm : featureModifier (x ++ r) = some ((), d :: (t2 ++ r)) := by
      simp [featureModifier, porelse, plitS, hparen, hsyl]
    have hplus : plit ['+'] (d :: (t2 ++ r)) = none :=
      plit_cons_none (Ne.symm (sname_char_ne hd (by decide)))
    have hstopD : stopU (d :: (t2 ++ r)) :=
      ⟨sname_not_ws hd, sname_char_ne hd (by decide)⟩
    have hu1 : uscore (d :: (t2 ++ r)) = some ((), d :: (t2 ++ r)) :=
      uscore_stop hstopD
    have hname : nameP (d :: (t2 ++ r)) = some (d :: t2, r) := by
      have h0 := nameP_run (x := d :: t2) (r := r) (by simp) hdt hheadR
      simpa using h0
    refine ⟨(true, false, d :: t2), ?_⟩
    simp [plusFeature, pbind, popt, ppure, plitS, hfm, hplus, hu1, hname,
          uscore_stop hstopR]
  · have hhead : x ++ r = c0 :: (t0 ++ r) := by rw [hx0]; rfl
    have hparen : plit "(Syllable)".data (x ++ r) = none := by
      rw [hhead]
      exact plit_cons_none (Ne.symm (sname_char_ne hc0 (by decide)))
    have hsylf : plit "syllable".data (x ++ r) = none := by
      refine plit_fail_of_not_pre fun hpre => ?_
      rcases IsPre_split hpre with hl | ⟨w2, hw2, hw2r⟩
      · exact hp hl
      · rcases hr with rfl | ⟨t, rfl⟩
        · obtain ⟨u, hu⟩ := hw2r
          have hw2nil : w2 = [] := by
            cases w2 with
            | nil => rfl
            | cons e w3 => simp at hu
          subst hw2nil
          refine hp ⟨[], ?_⟩
          rw [List.append_nil]
          exact hw2.trans (List.append_nil x)
        · obtain ⟨u, hu⟩ := hw2r
          cases w2 with
          | nil =>
            refine hp ⟨[], ?_⟩
            rw [List.append_nil]
            exact hw2.trans (List.append_nil x)
          | cons e w3 =>
            rw [List.cons_append] at hu
            injection hu with he _
            subst he
            have hmem : ',' ∈ "syllable".data := by
              rw [hw2]
              exact List.mem_append_right _ (by simp)
            exact absurd hmem (by decide)
    have hfm : featureModifier (x ++ r) = none := by
      simp [featureModifier, porelse, plitS, hparen, hsylf]
    have hplus : plit ['+'] (x ++ r) = none := by
      rw [hhead]
      exact plit_cons_none (Ne.symm (sname_char_ne hc0 (by decide)))
    have hstopX : stopU (x ++ r) := by
      rw [hhead]
      exact ⟨sname_not_ws hc0, sname_char_ne hc0 (by decide)⟩
    refine ⟨(false, false, x), ?_⟩
    simp [plusFeature, pbind, popt, ppure, plitS, hfm, hplus,
          uscore_stop hstopX, nameP_run hg.1 hg.2.1 hheadR,
          uscore_stop hstopR]

theorem pmanyF_chain1 {α : Type} {p : P α} {s0 s1 : List Char} {a1 : α}
    (h1 : p s0 = some (a1, s1)) (h2 : p s1 = none) (f : Nat) :
    pmanyF p (f + 1) s0 = ([a1], s1) := by
  rw [pmanyF_step h1 f, pmanyF_stop h2]

theorem pmanyF_chain2 {α : Type} {p : P α} {s0 s1 s2 : List Char} {a1 a2 : α}
    (h1 : p s0 = some (a1, s1)) (h2 : p s1 = some (a2, s2)) (h3 : p s2 = none)
    (hl : s1.length < s0.length) :
    ∀ f, s0.length < f → pmanyF p f s0 = ([a1, a2], s2) := by
  intro f hf
  cases f with
  | zero => exact absurd hf (Nat.not_lt_zero _)
  | succ f =>
    rw [pmanyF_step h1 f]
    cases f with
    | zero =>
      exfalso
      omega
    | succ f => rw [pmanyF_step h2 f, pmanyF_stop h3]

/-- Three comma-separated good names are parsed by the feature-list body
into a single `plusList` with exactly three features. -/
theorem featureBody_three {a b c : List Char}
    (ha : GoodName a) (hb : GoodName b) (hc : GoodName c) :
    ∃ v1 v2 v3,
      featureBody (a ++ (',' :: (' ' :: (b ++ (',' :: (' ' :: c)))))) =
        some (FDecl.plusList [v1, v2, v3], []) := by
  obtain ⟨b0, bt, hb0, hcb0⟩ := goodName_cons hb
  obtain ⟨c0, ct, hc0, hcc0⟩ := goodName_cons hc
  obtain ⟨v1, h1⟩ :=
    plusFeature_run (r := ',' :: (' ' :: (b ++ (',' :: (' ' :: c)))))
      ha (Or.inr ⟨_, rfl⟩)
  obtain ⟨v2, h2⟩ :=
    plusFeature_run (r := ',' :: (' ' :: c)) hb (Or.inr ⟨_, rfl⟩)
  obtain ⟨v3, h3⟩ := plusFeature_run (r := []) hc (Or.inl rfl)
  rw [List.append_nil] at h3
  have hstopB : stopU (b ++ (',' :: (' ' :: c))) := by
    rw [hb0]
    exact ⟨sname_not_ws hcb0, sname_char_ne hcb0 (by decide)⟩
  have hstopC : stopU c := by
    rw [hc0]
    exact ⟨sname_not_ws hcc0, sname_char_ne hcc0 (by decide)⟩
  have hiter1 :
      (pbind (pbind (plitS ",") fun _ => uscore) fun _ => plusFeature)
        (',' :: (' ' :: (b ++ (',' :: (' ' :: c))))) =
        some (v2, ',' :: (' ' :: c)) := by
    have hpl : plit [','] (',' :: (' ' :: (b ++ (',' :: (' ' :: c))))) =
        some ((), ' ' :: (b ++ (',' :: (' ' :: c)))) :=
      plit_append [','] (' ' :: (b ++ (',' :: (' ' :: c))))
    have hus : uscore (' ' :: (b ++ (',' :: (' ' :: c)))) =
        some ((), b ++ (',' :: (' ' :: c))) := uscore_ws1 (by decide) hstopB
    simp [pbind, plitS, hpl, hus, h2]
  have hiter2 :
      (pbind (pbind (plitS ",") fun _ => uscore) fun _ => plusFeature)
        (',' :: (' ' :: c)) = some (v3, []) := by
    have hpl : plit [','] (',' :: (' ' :: c)) = some ((), ' ' :: c) :=
      plit_append [','] (' ' :: c)
    have hus : uscore (' ' :: c) = some ((), c) := uscore_ws1 (by decide) hstopC
    simp [pbind, plitS, hpl, hus, h3]
  have hiter3 :
      (pbind (pbind (plitS ",") fun _ => uscore) fun _ => plusFeature)
        ([] : List Char) = none := rfl
  have hlen : (',' :: (' ' :: c)).length <
      (',' :: (' ' :: (b ++ (',' :: (' ' :: c))))).length := by
    simp [List.length_append]
    omega
  refine ⟨v1, v2, v3, ?_⟩
  have halt1 :
      psepStar plusFeature (pbind (plitS ",") fun _ => uscore)
        (a ++ (',' :: (' ' :: (b ++ (',' :: (' ' :: c)))))) =
        some ([v1, v2, v3], []) := by
    simp only [psepStar, h1]
    rw [pmanyF_chain2 hiter1 hiter2 hiter3 hlen _ (Nat.lt_succ_self _)]
  simp [featureBody, porelse, pmap, halt1]

/-- A three-name boolean feature declaration parses as exactly one
`FeatureDecl` statement. -/
theorem lsc_feature_three {a b c : List Char}
    (ha : GoodName a) (hb : GoodName b) (hc : GoodName c) :
    lsc_file ('F' :: 'e' :: 'a' :: 't' :: 'u' :: 'r' :: 'e' :: ' ' ::
        (a ++ (',' :: (' ' :: (b ++ (',' :: (' ' :: c))))))) =
      some [Stmt.featureDecl] := by
  obtain ⟨a0, at2, ha0, hca0⟩ := goodName_cons ha
  obtain ⟨w1, w2, w3, hbody⟩ := featureBody_three ha hb hc
  have hstopA : stopU (a ++ (',' :: (' ' :: (b ++ (',' :: (' ' :: c)))))) := by
    rw [ha0]
    exact ⟨sname_not_ws hca0, sname_char_ne hca0 (by decide)⟩
  have hkw : plit "Feature".data
      ('F' :: 'e' :: 'a' :: 't' :: 'u' :: 'r' :: 'e' :: ' ' ::
        (a ++ (',' :: (' ' :: (b ++ (',' :: (' ' :: c))))))) =
      some ((), ' ' :: (a ++ (',' :: (' ' :: (b ++ (',' :: (' ' :: c))))))) :=
    plit_append "Feature".data _
  have hus1 : uscore (' ' :: (a ++ (',' :: (' ' :: (b ++ (',' :: (' ' :: c))))))) =
      some ((), a ++ (',' :: (' ' :: (b ++ (',' :: (' ' :: c)))))) :=
    uscore_ws1 (by decide) hstopA
  have hfd : featureDecl
      ('F' :: 'e' :: 'a' :: 't' :: 'u' :: 'r' :: 'e' :: ' ' ::
        (a ++ (',' :: (' ' :: (b ++ (',' :: (' ' :: c))))))) =
      some (Stmt.featureDecl, []) := by
    simp [featureDecl, featureDeclFull, pmap, pbind, porelse, plitS, hkw,
          hus1, hbody]
  have hstmt : ∀ f, statement f
      ('F' :: 'e' :: 'a' :: 't' :: 'u' :: 'r' :: 'e' :: ' ' ::
        (a ++ (',' :: (' ' :: (b ++ (',' :: (' ' :: c))))))) =
      some (Stmt.featureDecl, []) := fun f => by
    simp [statement, porelse, hfd]
  have hu0 : uscore
      ('F' :: 'e' :: 'a' :: 't' :: 'u' :: 'r' :: 'e' :: ' ' ::
        (a ++ (',' :: (' ' :: (b ++ (',' :: (' ' :: c))))))) =
      some ((), 'F' :: 'e' :: 'a' :: 't' :: 'u' :: 'r' :: 'e' :: ' ' ::
        (a ++ (',' :: (' ' :: (b ++ (',' :: (' ' :: c))))))) :=
    uscore_stop ⟨by decide, by decide⟩
  simp only [lsc_file, pbind, hu0, pstar]
  rw [pmanyF_chain1 (hstmt _) (statement_nil _)]

/-! ## Whitespace-and-comment-only inputs -/

theorem tws_cons_pos {p : Char → Bool} {c : Char} {s : List Char}
    (hc : p c = true) :
    takeWhileSplit p (c :: s) =
      (c :: (takeWhileSplit p s).1, (takeWhileSplit p s).2) := by
  simp [takeWhileSplit, hc]

theorem tws_cons_neg {p : Char → Bool} {c : Char} {s : List Char}
    (hc : p c = false) :
    takeWhileSplit p (c :: s) = ([], c :: s) := by
  simp [takeWhileSplit, hc]

theorem tws_spec (p : Char → Bool) (s : List Char) :
    (takeWhileSplit p s).1 ++ (takeWhileSplit p s).2 = s ∧
      (∀ c ∈ (takeWhileSplit p s).1, p c = true) ∧
      headNo p (takeWhileSplit p s).2 := by
  induction s with
  | nil => exact ⟨rfl, fun a ha => absurd ha (List.not_mem_nil a), trivial⟩
  | cons c s ih =>
    obtain ⟨h1, h2, h3⟩ := ih
    cases hc : p c with
    | true =>
      rw [tws_cons_pos hc]
      refine ⟨by simp [h1], ?_, h3⟩
      intro a ha
      rcases List.mem_cons.mp ha with rfl | ha2
      · exact hc
      · exact h2 a ha2
    | false =>
      rw [tws_cons_neg hc]
      exact ⟨rfl, by simp, hc⟩

theorem pcls1_pos {p : Char → Bool} {c : Char} {s : List Char}
    (hc : p c = true) :
    pcls1 p (c :: s) =
      some ((takeWhileSplit p (c :: s)).1, (takeWhileSplit p (c :: s)).2) := by
  simp [pcls1, takeWhileSplit, hc]

theorem blkOK_Blankish {bs : List Blk} (h : ∀ b ∈ bs, BlkOK b) :
    Blankish (blanks bs) := by
  induction bs with
  | nil => exact Blankish.nil
  | cons b bs ih =>
    have hb := h b (by simp)
    have hbs := ih fun x hx => h x (by simp [hx])
    cases b with
    | wsB c => exact Blankish.ws c hb _ hbs
    | cmt body nl =>
      obtain ⟨hbody, hnl⟩ := hb
      have hw : wsChar nl = true := by rcases hnl with rfl | rfl <;> decide
      have hn : commentChar nl = false := by rcases hnl with rfl | rfl <;> decide
      have he : blanks (Blk.cmt body nl :: bs) =
          '#' :: (body ++ nl :: blanks bs) := by
        simp [blanks, blkStr]
      rw [he]
      exact Blankish.cm body hbody nl hw hn _ hbs

/-- Stripping the maximal whitespace prefix of a blankish string leaves a
blankish string that is empty or starts a comment. -/
theorem blankish_dropWs {s : List Char} (h : Blankish s) :
    Blankish (takeWhileSplit wsChar s).2 ∧
      ((takeWhileSplit wsChar s).2 = [] ∨
        ∃ body nl t, (takeWhileSplit wsChar s).2 = '#' :: (body ++ nl :: t) ∧
          (∀ ch ∈ body, commentChar ch = true) ∧ wsChar nl = true ∧
          commentChar nl = false ∧ Blankish t) := by
  induction h with
  | nil => exact ⟨Blankish.nil, Or.inl rfl⟩
  | ws c hc s hs ih => simpa [tws_cons_pos hc] using ih
  | cm body hb nl hw hn s hs ih =>
    have hsharp : wsChar '#' = false := by decide
    rw [tws_cons_neg hsharp]
    exact ⟨Blankish.cm body hb nl hw hn s hs,
      Or.inr ⟨body, nl, s, rfl, hb, hw, hn, hs⟩⟩

/-- On nonempty blankish input one iteration of the skip rule succeeds,
consumes at least one character, and leaves blankish input. -/
theorem blankish_step {s : List Char} (h : Blankish s) (hne : s ≠ []) :
    ∃ t, uscoreIter s = some ((), t) ∧ t.length < s.length ∧ Blankish t := by
  obtain ⟨hid, hwall, hhead⟩ := tws_spec wsChar s
  obtain ⟨hbr, hcase⟩ := blankish_dropWs h
  rcases hcase with hr0 | ⟨body, nl, t, hr, hbody, hnlw, hnlc, ht⟩
  · -- the whole input is whitespace
    obtain ⟨c, s2, rfl⟩ : ∃ c s2, s = c :: s2 := by
      cases s with
      | nil => exact absurd rfl hne
      | cons c s2 => exact ⟨c, s2, rfl⟩
    have hw_eq : (takeWhileSplit wsChar (c :: s2)).1 = c :: s2 := by
      have h0 := hid
      rw [hr0, List.append_nil] at h0
      exact h0
    have hc : wsChar c = true := hwall c (by rw [hw_eq]; simp)
    have hws : whitespace (c :: s2) = some ((), []) := by
      simp [whitespace, pmap, pcls1_pos hc, hr0]
    have hcm : comment (c :: s2) = none := by
      simp [comment, pbind, popt, hws, plitS, plit]
    refine ⟨[], ?_, by simp, Blankish.nil⟩
    simp [uscoreIter, pbind, popt, hcm, hws]
  · -- after the whitespace run a comment begins
    have hplsharp : plit ['#'] ((takeWhileSplit wsChar s).2) =
        some ((), body ++ nl :: t) := by
      rw [hr]
      exact plit_append ['#'] (body ++ nl :: t)
    have hbodyrun : pcls0 commentChar (body ++ nl :: t) =
        some (body, nl :: t) := by
      have h0 : takeWhileSplit commentChar (body ++ nl :: t) = (body, nl :: t) :=
        tws_append (p := commentChar) (w := body) (r := nl :: t) hbody hnlc
      simp [pcls0, h0]
    have hcm : comment s = some ((), nl :: t) := by
      cases hsw : (takeWhileSplit wsChar s).1 with
      | nil =>
        have hs_eq : (takeWhileSplit wsChar s).2 = s := by
          have h0 := hid
          rw [hsw] at h0
          exact h0
        have hwsf : whitespace s = none := by
          rw [← hs_eq, hr]
          simp [whitespace, pmap, pcls1_cons_none (show wsChar '#' = false by decide)]
        rw [← hs_eq] at hwsf ⊢
        simp [comment, pbind, popt, hwsf, plitS, hplsharp, hbodyrun, pmap]
      | cons w0 ws0 =>
        have hp1 : pcls1 wsChar (w0 :: (ws0 ++ (takeWhileSplit wsChar s).2)) =
            some (w0 :: ws0, (takeWhileSplit wsChar s).2) :=
          pcls1_append (hwall w0 (by rw [hsw]; simp))
            (fun x hx => hwall x (by rw [hsw]; simp [hx])) hhead
        have hws : whitespace s = some ((), (takeWhileSplit wsChar s).2) := by
          conv_lhs => rw [← hid, hsw]
          simp [whitespace, pmap, hp1]
        simp [comment, pbind, popt, hws, plitS, hplsharp, hbodyrun, pmap]
    obtain ⟨hid2, _, _⟩ := tws_spec wsChar t
    have hws2 : whitespace (nl :: t) =
        some ((), (takeWhileSplit wsChar t).2) := by
      have h0 := pcls1_pos (s := t) hnlw
      rw [tws_cons_pos hnlw] at h0
      simp [whitespace, pmap, h0]
    have hit : uscoreIter s = some ((), (takeWhileSplit wsChar t).2) := by
      simp [uscoreIter, pbind, popt, hcm, hws2]
    refine ⟨(takeWhileSplit wsChar t).2, hit, ?_, (blankish_dropWs ht).1⟩
    have hl1 : (takeWhileSplit wsChar t).2.length ≤ t.length := by
      have h0 := congrArg List.length hid2
      rw [List.length_append] at h0
      omega
    have hl2 : ((takeWhileSplit wsChar s).2).length =
        body.length + t.length + 2 := by
      rw [hr]
      simp [List.length_append]
      omega
    have hl3 : ((takeWhileSplit wsChar s).1).length +
        ((takeWhileSplit wsChar s).2).length = s.length := by
      have h0 := congrArg List.length hid
      rw [List.length_append] at h0
      exact h0
    omega

theorem uscore_blankish : ∀ (f : Nat) (s : List Char), Blankish s →
    s.length < f → (pmanyF uscoreIter f s).2 = [] := by
  intro f
  induction f with
  | zero => intro s h h0; exact absurd h0 (Nat.not_lt_zero _)
  | succ f ih =>
    intro s h hlen
    by_cases hne : s = []
    · subst hne
      rw [pmanyF_stop (uscoreIter_stop (s := []) trivial)]
    · obtain ⟨t, hit, hlt, hbt⟩ := blankish_step h hne
      rw [pmanyF_step hit f]
      exact ih t hbt (by omega)

/-- Any wellformed sequence of whitespace and terminated comments parses
to the empty statement list. -/
theorem lsc_blanks {bs : List Blk} (h : ∀ b ∈ bs, BlkOK b) :
    lsc_file (blanks bs) = some [] := by
  have hbl : Blankish (blanks bs) := blkOK_Blankish h
  have hu : uscore (blanks bs) = some ((), []) := by
    show (match (pstar uscoreIter) (blanks bs) with
          | none => none
          | some (a, t) => some ((), t)) = some ((), [])
    simp only [pstar]
    rw [uscore_blankish ((blanks bs).length + 1) (blanks bs) hbl
          (Nat.lt_succ_self _)]
  simp only [lsc_file, pbind, hu, pstar]
  rw [pmanyF_stop (statement_nil _)]

/-! ## The claims -/

/-- Claim C1: the spec says `x => y / a_b` parses as a standard
expression with from-part `x`, to-part `y` and a condition environment
`a _ b`.  The code rejects the spaced input outright (no whitespace is
consumed around `=>`, contradicting the grammar's own `CHANGE` token
comment); only the glued spelling `x=>y/a_b` is accepted by the
`standardExpression` rule, and there it does produce exactly the claimed
structure. -/
theorem C1_standard_expression_spaces :
    lsc_file "x => y / a_b".data = none ∧
    standardExpressionFull 64 "x=>y/a_b".data =
      some ((RE.textE "x".data false, RE.textE "y".data false,
        some (RE.cenv (some (RE.envAnch (some (RE.textE "a".data false))
          (some (RE.textE "b".data false)))) none)), []) :=
  ⟨by decide, rfl⟩

/-- Claim C2 counterexample: `Feature a, b, c` parses to ONE statement
(a single `FeatureDecl`), not three. -/
theorem C2_counterexample :
    lsc_file "Feature a, b, c".data = some [Stmt.featureDecl] ∧
    ¬ (lsc_file "Feature a, b, c".data).map List.length = some 3 := by
  exact ⟨by decide, by decide⟩

/-- Claim C2 (amended): for every valid boolean feature declaration
listing three comma-separated feature names, parsing the file succeeds
and yields exactly one statement, a single boolean feature declaration
containing the three features. -/
theorem C2_feature_list_single_statement {a b c : List Char}
    (ha : GoodName a) (hb : GoodName b) (hc : GoodName c) :
    lsc_file ("Feature ".data ++ a ++ (", ".data ++ b ++ (", ".data ++ c))) =
      some [Stmt.featureDecl] := by
  have h := lsc_feature_three ha hb hc
  have he : "Feature ".data ++ a ++ (", ".data ++ b ++ (", ".data ++ c)) =
      'F' :: 'e' :: 'a' :: 't' :: 'u' :: 'r' :: 'e' :: ' ' ::
        (a ++ (',' :: (' ' :: (b ++ (',' :: (' ' :: c)))))) := by
    simp
  rw [he]
  exact h

/-- Claim C2 witness: the amended theorem at the names foo, bar, baz. -/
theorem C2_witness :
    lsc_file ("Feature ".data ++ "foo".data ++
        (", ".data ++ "bar".data ++ (", ".data ++ "baz".data))) =
      some [Stmt.featureDecl] :=
  C2_feature_list_single_statement
    ⟨by decide, by decide, by decide⟩
    ⟨by decide, by decide, by decide⟩
    ⟨by decide, by decide, by decide⟩

/-- Claim C3: the spec says `Symbol name [ matrix ]` takes the matrix
alternative of `symbolDecl`.  In the code the first alternative
`("," _ symbolName())*` succeeds on every input (zero repetitions), so
the matrix alternative is unreachable; on `Symbol a [x]` the matrix is
left unconsumed and the file-level parse fails, while `Symbol a, b`
does take the name-list alternative. -/
theorem C3_symbol_matrix_unreachable :
    (∀ (s : List Char) (r : STail) (t : List Char),
        symbolTail s = some (r, t) → r.isMat = false) ∧
    lsc_file "Symbol a [x]".data = none ∧
    lsc_file "Symbol a, b".data = some [Stmt.symbolDecl] := by
  refine ⟨?_, by decide, by decide⟩
  intro s r t h
  simp only [symbolTail, porelse, pmap, pstar] at h
  obtain ⟨h1, -⟩ := Prod.mk.injEq .. ▸ Option.some.inj h
  rw [← h1]
  rfl

/-- Claim C3 witness: the general part applied to the input `[x]`,
on which the tail takes the (empty) name-list branch. -/
theorem C3_witness :
    STail.isMat (STail.names ([] : List (List Char × Bool))) = false :=
  C3_symbol_matrix_unreachable.1 "[x]".data (STail.names []) "[x]".data rfl

/-- Claim C4: the spec says a condition clause may be immediately
followed by an exclusion clause.  In the code
`compoundEnvironment = condition / exclusion / (condition exclusion)`
commits to the first succeeding alternative, so the combined third
alternative is unreachable: no parse of `compoundEnvironment` ever
carries both clauses, and `x=>y/a_b//c_d` fails at file level. -/
theorem C4_condition_exclusion_unreachable :
    (∀ (f : Nat) (s : List Char) (r : RE) (t : List Char),
        compoundEnvironment f s = some (r, t) → isBothCE r = false) ∧
    lsc_file "x=>y/a_b//c_d".data = none := by
  refine ⟨?_, by decide⟩
  intro f s r t h
  cases f with
  | zero => exact absurd h (by simp [compoundEnvironment, parseElem, pfail])
  | succ f =>
    simp only [compoundEnvironment, parseElem] at h
    cases hcond : parseElem f ETag.cond s with
    | some v =>
      obtain ⟨c, t2⟩ := v
      simp only [porelse, pmap, hcond] at h
      obtain ⟨h1, -⟩ := Prod.mk.injEq .. ▸ Option.some.inj h
      rw [← h1]
      rfl
    | none =>
      cases hexcl : parseElem f ETag.excl s with
      | some w =>
        obtain ⟨e, t3⟩ := w
        simp only [porelse, pmap, pbind, hcond, hexcl] at h
        obtain ⟨h1, -⟩ := Prod.mk.injEq .. ▸ Option.some.inj h
        rw [← h1]
        rfl
      | none =>
        simp [porelse, pmap, pbind, hcond, hexcl] at h

/-- Claim C4 witness: the general part applied to the condition-only
environment parsed from `/a_b`. -/
theorem C4_witness :
    isBothCE (RE.cenv (some (RE.envAnch (some (RE.textE "a".data false))
      (some (RE.textE "b".data false)))) none) = false :=
  C4_condition_exclusion_unreachable.1 64 "/a_b".data _ [] rfl

/-- Claim C5: the spec's intersect-not operator is `&!`, but the source
writes the literal `"!&"`.  Hence `a&!b` parses as an Interfix with the
plain intersect operator applied to the negated element `!b`, while the
undocumented spelling `a!&b` is what yields the intersect-not
operator. -/
theorem C5_intersect_not_operator :
    unconditionalRuleElement 64 "a&!b".data =
      some (RE.ifx [RE.textE "a".data false, RE.negE (RE.textE "b".data false)]
        [IOp.inter], []) ∧
    unconditionalRuleElement 64 "a!&b".data =
      some (RE.ifx [RE.textE "a".data false, RE.textE "b".data false]
        [IOp.interNot], []) :=
  ⟨rfl, rfl⟩

/-- Claim C6: `a&b>c` does parse as a single Interfix with three
operands and operators `[&, >]`; but `a &b` (with a space), which fails
the Interfix alternative as claimed, does NOT become a two-element
sequence: the `sequence` rule never consumes whitespace between
elements (contradicting the grammar comment
`sequence: freeElement (WHITESPACE freeElement)+`), so the element
parse consumes only `a` and leaves ` &b`. -/
theorem C6_interfix_vs_sequence :
    unconditionalRuleElement 64 "a&b>c".data =
      some (RE.ifx [RE.textE "a".data false, RE.textE "b".data false,
        RE.textE "c".data false] [IOp.inter, IOp.transf], []) ∧
    interfix 64 "a &b".data = none ∧
    unconditionalRuleElement 64 "a &b".data =
      some (RE.textE "a".data false, " &b".data) :=
  ⟨rfl, rfl, rfl⟩

/-- Claim C7 counterexample: `ab+` does not parse as a Sequence at all:
the name token is greedy, so the repeat applies to the single text atom
`ab`. -/
theorem C7_counterexample :
    unconditionalRuleElement 64 "ab+".data =
      some (RE.repE (RE.textE "ab".data false) RepT.atLeastOne, []) ∧
    RE.isSeq (RE.repE (RE.textE "ab".data false) RepT.atLeastOne) = false :=
  ⟨rfl, rfl⟩

/-- Claim C7 (amended): `ab+` parses as `Repeat(Text "ab", at-least-one)`
— the greedy multi-character name token makes `ab` one atom, and repeat
binds to that single preceding element, not to a sequence. -/
theorem C7_repeat_on_name_token :
    unconditionalRuleElement 64 "ab+".data =
      some (RE.repE (RE.textE "ab".data false) RepT.atLeastOne, []) ∧
    RE.isRep (RE.repE (RE.textE "ab".data false) RepT.atLeastOne) = true :=
  ⟨rfl, rfl⟩

/-- Claim C8: keyword case-insensitivity at the first letter is broken
for three keywords: the diacritic statement accepts `Diacritic` and the
misspelling `diatritic` but rejects `diacritic`; `keywordExpression`
accepts only `Unchanged` (the lowercase alternative is a duplicate of
the capitalized one); and in `keywordModifier` the `Rtl` alternative is
likewise duplicated, so lowercase `rtl` matches only as a generic name,
which does not consume trailing whitespace the way the keyword
alternative does. -/
theorem C8_keyword_case_spellings :
    lsc_file "Diacritic a []".data = some [Stmt.diacriticDecl] ∧
    lsc_file "diacritic a []".data = none ∧
    lsc_file "diatritic a []".data = some [Stmt.diacriticDecl] ∧
    keywordExpression "Unchanged".data = some ((), []) ∧
    keywordExpression "unchanged".data = none ∧
    keywordModifier "Rtl ".data = some ((), []) ∧
    keywordModifier "rtl ".data = some ((), [' ']) :=
  ⟨by decide, by decide, by decide, rfl, rfl, rfl, rfl⟩

/-- Claim C9: the spec says the bare input `Feature` must fail with an
error just past the keyword.  The code instead parses it successfully:
the feature list uses `**` (zero or more) where the grammar comment
documents at least one `plusFeature`, so `Feature` yields a
`FeatureDecl` with an empty feature list. -/
theorem C9_bare_feature_parses :
    lsc_file "Feature".data = some [Stmt.featureDecl] ∧
    featureDeclFull "Feature".data = some (FDecl.plusList [], []) :=
  ⟨by decide, rfl⟩

/-- Claim C10 counterexample: a comment not followed by a whitespace
character makes the whole parse fail — `#c` is rejected. -/
theorem C10_counterexample : lsc_file "#c".data = none := by decide

/-- Claim C10 (amended): every input consisting of whitespace characters
and comments each terminated by a line break (including the empty
input) parses successfully to the empty statement sequence.  (A comment
at end of input without a following line break fails, see the
counterexample.) -/
theorem C10_blank_inputs {bs : List Blk} (h : ∀ b ∈ bs, BlkOK b) :
    lsc_file (blanks bs) = some [] :=
  lsc_blanks h

/-- Claim C10 witness: a space, a newline-terminated comment and a tab
parse to the empty statement list. -/
theorem C10_witness :
    lsc_file (blanks [Blk.wsB ' ', Blk.cmt "c".data '\n', Blk.wsB '\t']) =
      some [] :=
  C10_blank_inputs (by
    intro b hb
    simp only [List.mem_cons, List.not_mem_nil, or_false] at hb
    rcases hb with rfl | rfl | rfl
    · show wsChar ' ' = true
      decide
    · exact ⟨by decide, Or.inl rfl⟩
    · show wsChar '\t' = true
      decide)

end Wdb
